import Mathlib

/-!
Verification of the sandboxed arithmetic evaluator in `src/1.py` / `src/app.py`.

The program parses a string with Python's `ast.parse(expr, mode="eval")`,
walks the resulting tree rejecting blacklisted node kinds and non-whitelisted
operators, and then evaluates it recursively with `_eval`.

Shallow embedding notes:
* Python numbers are modelled as a tagged `Value`: exact integers (`ℤ`),
  booleans (Python `bool` is a subclass of `int`), floats modelled as exact
  rationals (`ℚ`; IEEE-754 rounding, overflow to infinity and NaN are not
  modelled), plus a marker `complexX` for the complex values that Python's
  `**` produces for a negative base and non-integral exponent (only the kind
  of such values is tracked, since their exact value is irrational in
  general; likewise `floatPowApprox` stands in for the positive real value
  of `b ** e` with `b > 0` and non-integral `e`).
* `ast.parse` is modelled by `pyParse`: a tokenizer and recursive-descent
  parser for the decimal-literal arithmetic fragment of Python's expression
  grammar (identifiers, calls, attribute access, the keyword literals
  `True` / `False` / `None`, float literals with exponent markers).  Outside
  the modelled fragment: hex/octal/binary literals, underscores in literals,
  strings, comments, newlines, brackets, commas and the non-arithmetic
  operators are lexical errors here, whereas CPython parses some of them
  into nodes that the walk or `_eval` then rejects; every such input fails
  in both, only the error kind may differ.  Error messages and source
  positions are not modelled.
* `ast.walk` visits nodes breadth-first and the loop raises at the first
  offending node; only the error-versus-ok outcome is modelled, not the
  visiting order.  Call arguments and attribute names are parsed but not
  retained: both the walk and `_eval` reject a `Call` / `Attribute` node
  before ever looking at its children.
-/

-- Decidable equality for `Except` results, used to evaluate the model on
-- concrete inputs inside proofs.
deriving instance DecidableEq for Except

/-- Exceptions raised inside a binary operator application, caught by the
`try`/`except` in `_eval` and wrapped into a `ValueError`. -/
inductive OpExc
| zeroDivision
| typeError
deriving DecidableEq

/-- The error outcomes of `evaluate_expr` (all surfaced as `ValueError` by
`src/1.py`; the constructor records which check fired). -/
inductive EvalErr
| syntaxError
| disallowedOperator
| disallowedUnaryOperator
| disallowedComponent
| unsupportedConstant
| unsupportedBinaryOperator
| unsupportedUnaryOperator
| binOpError (e : OpExc)
| callsNotAllowed
| namesNotAllowed
| unsupportedExpression
deriving DecidableEq

/-- Runtime values of the evaluator: Python ints, bools, floats (as exact
rationals) and the complex-result marker. -/
inductive Value
| int (n : ℤ)
| bool (b : Bool)
| float (q : ℚ)
| complexX
deriving DecidableEq

/-- A value of Python type `int` or `float` (including `bool`, which is an
`int` subclass): what the spec calls a Number. -/
def Value.isNumber : Value → Bool
| .complexX => false
| _ => true

/-- Integer-kind values: exact integers and bools. -/
def Value.isIntKind : Value → Bool
| .int _ => true
| .bool _ => true
| _ => false

/-- Float-kind values. -/
def Value.isFloatKind : Value → Bool
| .float _ => true
| _ => false

/-- The rational value of a real-kind `Value` (`complexX` is mapped to 0 but
is never used there). -/
def Value.ratOf : Value → ℚ
| .int n => n
| .bool b => if b then 1 else 0
| .float q => q
| .complexX => 0

/-- The integer value of an integer-kind `Value`. -/
def Value.intOf : Value → ℤ
| .int n => n
| .bool b => if b then 1 else 0
| _ => 0

/-- Python truth of `value == 0` for the numeric kinds (a computed complex
value is treated as nonzero: the marker arises from `b ** e` with `b < 0`,
whose modulus is positive). -/
def Value.isZero : Value → Bool
| .int n => n = 0
| .bool b => !b
| .float q => q = 0
| .complexX => false

/-- Float-or-complex kind: the result kinds produced by float contamination. -/
def Value.isFloatish : Value → Bool
| .float _ => true
| .complexX => true
| _ => false

/-- Binary operator node kinds of the Python AST (the seven arithmetic ones
plus the kinds excluded by the `_BIN_OPS` whitelist). -/
inductive PyBinOpKind
| add | sub | mult | div | floorDiv | mod | pow
| matMult | bitOr | bitXor | bitAnd | lshift | rshift
deriving DecidableEq

/-- Unary operator node kinds of the Python AST. -/
inductive PyUnaryKind
| uadd | usub | unot | invert
deriving DecidableEq

/-- Constant (literal) payloads: `ast.Constant` values reachable in the
modelled fragment. -/
inductive PyConst
| int (n : ℤ)
| bool (b : Bool)
| float (q : ℚ)
| none
deriving DecidableEq

/-- Expression nodes of `ast.parse(..., mode="eval")` restricted to the
modelled fragment.  `call` and `attribute` do not retain their children:
both the walk and `_eval` reject these nodes before inspecting children,
so the children never influence the modelled outcome. -/
inductive PyExpr
| constant (c : PyConst)
| binOp (op : PyBinOpKind) (l r : PyExpr)
| unaryOp (op : PyUnaryKind) (e : PyExpr)
| name
| call (f : PyExpr)
| attr (v : PyExpr)
deriving DecidableEq

/-- Addition on `ℚ` implemented with `Rat.divInt` so that the kernel can
evaluate it on literals (`Rat.add` is `@[irreducible]`); `qAdd_eq` below
proves it equal to `+`. -/
def qAdd (a b : ℚ) : ℚ := Rat.divInt (a.num * b.den + b.num * a.den) (a.den * b.den)

/-- Kernel-evaluable subtraction on `ℚ`; equal to `-` by `qSub_eq`. -/
def qSub (a b : ℚ) : ℚ := Rat.divInt (a.num * b.den - b.num * a.den) (a.den * b.den)

/-- Kernel-evaluable multiplication on `ℚ`; equal to `*` by `qMul_eq`. -/
def qMul (a b : ℚ) : ℚ := Rat.divInt (a.num * b.num) (a.den * b.den)

/-- Kernel-evaluable division on `ℚ`; equal to `/` by `qDiv_eq`. -/
def qDiv (a b : ℚ) : ℚ := Rat.divInt (a.num * b.den) (a.den * b.num)

/-- Kernel-evaluable integer power on `ℚ`; equal to `zpow` by `qPowInt_eq`. -/
def qPowInt (q : ℚ) (n : ℤ) : ℚ :=
  if 0 ≤ n then Rat.divInt (q.num ^ n.toNat) ((q.den : ℤ) ^ n.toNat)
  else Rat.divInt ((q.den : ℤ) ^ (-n).toNat) (q.num ^ (-n).toNat)

/-- Stand-in for the real number `b ** e` with `b > 0` and non-integral
exponent `e`: the true value is irrational in general and outside the
rational float model.  Only the facts used about it are that it is a float
and positive, which hold of the true value since `b > 0`. -/
def floatPowApprox (_b _e : ℚ) : ℚ := 1

/-- Integer/float dispatch shared by `operator.add`, `operator.sub` and
`operator.mul`: two integer-kind operands give an exact integer, a float
operand promotes to float, a complex operand gives a complex result. -/
def arith2 (fi : ℤ → ℤ → ℤ) (fq : ℚ → ℚ → ℚ) (a b : Value) : Except OpExc Value :=
  if a = .complexX ∨ b = .complexX then .ok .complexX
  else if a.isFloatKind || b.isFloatKind then .ok (.float (fq a.ratOf b.ratOf))
  else .ok (.int (fi a.intOf b.intOf))

/-- Model of `operator.add` on the evaluator's values. -/
def pyAdd : Value → Value → Except OpExc Value := arith2 (· + ·) qAdd

/-- Model of `operator.sub`. -/
def pySub : Value → Value → Except OpExc Value := arith2 (· - ·) qSub

/-- Model of `operator.mul`. -/
def pyMul : Value → Value → Except OpExc Value := arith2 (· * ·) qMul

/-- Model of `operator.truediv`: always float-kind (or complex), and a zero
right operand raises `ZeroDivisionError`. -/
def pyDiv (a b : Value) : Except OpExc Value :=
  if b.isZero then .error .zeroDivision
  else if a = .complexX ∨ b = .complexX then .ok .complexX
  else .ok (.float (qDiv a.ratOf b.ratOf))

/-- Model of `operator.floordiv`: floor division.  Python has no floor
division on complex values (`TypeError`); a zero right operand raises
`ZeroDivisionError`; two integer-kind operands stay exact. -/
def pyFloorDiv (a b : Value) : Except OpExc Value :=
  if a = .complexX ∨ b = .complexX then .error .typeError
  else if b.isZero then .error .zeroDivision
  else if a.isIntKind && b.isIntKind then .ok (.int (Int.fdiv a.intOf b.intOf))
  else .ok (.float ((qDiv a.ratOf b.ratOf).floor : ℤ))

/-- Model of `operator.mod`: floor-consistent remainder (`Int.fmod` for
integers, `l - r * ⌊l / r⌋` for floats), `TypeError` on complex operands,
`ZeroDivisionError` on a zero right operand. -/
def pyMod (a b : Value) : Except OpExc Value :=
  if a = .complexX ∨ b = .complexX then .error .typeError
  else if b.isZero then .error .zeroDivision
  else if a.isIntKind && b.isIntKind then .ok (.int (Int.fmod a.intOf b.intOf))
  else .ok (.float (qSub a.ratOf (qMul b.ratOf ((qDiv a.ratOf b.ratOf).floor : ℤ))))

/-- Whether a rational is an integer (used for exponent-kind dispatch). -/
def isIntegralQ (q : ℚ) : Bool := q.den = 1

/-- Model of `operator.pow` (Python `**`):
integer base and non-negative integer exponent stay exact; a negative
integer exponent gives a float (and `ZeroDivisionError` on base 0); with a
float operand the result is float for an integral exponent, and for a
non-integral exponent Python returns a complex value when the base is
negative (`complexX` here), `0.0` or `ZeroDivisionError` on base 0, and a
positive real otherwise (`floatPowApprox`); `0 ** complex_exponent` raises
`ZeroDivisionError` and any other complex operand propagates. -/
def pyPow (a b : Value) : Except OpExc Value :=
  if a = .complexX ∨ b = .complexX then
    if a.isZero then .error .zeroDivision else .ok .complexX
  else if a.isIntKind && b.isIntKind then
    if 0 ≤ b.intOf then .ok (.int (a.intOf ^ b.intOf.toNat))
    else if a.isZero then .error .zeroDivision
    else .ok (.float (qPowInt a.ratOf b.intOf))
  else if isIntegralQ b.ratOf then
    if a.isZero && decide (b.ratOf.num < 0) then .error .zeroDivision
    else .ok (.float (qPowInt a.ratOf b.ratOf.num))
  else if a.ratOf.num < 0 then .ok .complexX
  else if a.isZero then
    if b.ratOf.num < 0 then .error .zeroDivision else .ok (.float 0)
  else .ok (.float (floatPowApprox a.ratOf b.ratOf))

/-- Model of `operator.neg` (never raises on numeric values; `-True` is the
int `-1`). -/
def pyNeg : Value → Value
| .int n => .int (-n)
| .bool b => .int (-(if b then 1 else 0))
| .float q => .float (-q)
| .complexX => .complexX

/-- The `_BIN_OPS` dictionary of `src/1.py` (and `src/app.py`): a lookup
from binary operator node kind to the operator function, defined exactly
for the seven whitelisted operators. -/
def _BIN_OPS : PyBinOpKind → Option (Value → Value → Except OpExc Value)
| .add => some pyAdd
| .sub => some pySub
| .mult => some pyMul
| .div => some pyDiv
| .floorDiv => some pyFloorDiv
| .mod => some pyMod
| .pow => some pyPow
| _ => none

/-- The `_UNARY_OPS` dictionary: `UAdd` is the identity (`lambda x: x`),
`USub` is `operator.neg`; nothing else is mapped. -/
def _UNARY_OPS : PyUnaryKind → Option (Value → Value)
| .uadd => some (fun x => x)
| .usub => some pyNeg
| _ => none

/-- The recursive evaluator `_eval` of `src/1.py` lines 33-63: constants of
`int`/`bool`/`float` type evaluate to themselves, other constants raise;
`BinOp`/`UnaryOp` evaluate children first and then look the operator up in
the dictionaries, wrapping operator exceptions; `Call` and `Name` raise
dedicated errors and anything else falls through to the final
`Unsupported expression` raise. -/
def _eval : PyExpr → Except EvalErr Value
| .constant c =>
  match c with
  | .int n => .ok (.int n)
  | .bool b => .ok (.bool b)
  | .float q => .ok (.float q)
  | .none => .error .unsupportedConstant
| .binOp op l r =>
  match _eval l with
  | .error e => .error e
  | .ok lv =>
    match _eval r with
    | .error e => .error e
    | .ok rv =>
      match _BIN_OPS op with
      | some f =>
        match f lv rv with
        | .ok v => .ok v
        | .error e => .error (.binOpError e)
      | none => .error .unsupportedBinaryOperator
| .unaryOp op e =>
  match _eval e with
  | .error err => .error err
  | .ok v =>
    match _UNARY_OPS op with
    | some f => .ok (f v)
    | none => .error .unsupportedUnaryOperator
| .name => .error .namesNotAllowed
| .call _ => .error .callsNotAllowed
| .attr _ => .error .unsupportedExpression

/-- The validation walk of `evaluate_expr` (`src/1.py` lines 72-89): a
`BinOp`/`UnaryOp` whose operator is not in the dictionary is rejected, and
the explicit blacklist (`Call`, `Name`, `Attribute`, `Lambda`, ...) is
rejected; every other node kind — including constants of any type — passes.
Only the error-versus-ok outcome of the breadth-first `ast.walk` loop is
modelled. -/
def walkAst : PyExpr → Except EvalErr Unit
| .constant _ => .ok ()
| .binOp op l r =>
  if (_BIN_OPS op).isNone then .error .disallowedOperator
  else
    match walkAst l with
    | .error e => .error e
    | .ok _ => walkAst r
| .unaryOp op e =>
  if (_UNARY_OPS op).isNone then .error .disallowedUnaryOperator
  else walkAst e
| .name => .error .disallowedComponent
| .call _ => .error .disallowedComponent
| .attr _ => .error .disallowedComponent

/-- Lexical tokens of the modelled fragment of Python's tokenizer. -/
inductive Token
| intTok (n : ℕ)
| floatTok (q : ℚ)
| ident (s : String)
| plus | minus | star | dstar | slash | dslash | percent
| lparen | rparen | dot
deriving DecidableEq

/-- Characters of the modelled lexical alphabet.  CPython additionally knows
brackets, commas, quotes, comparison/bitwise operators, `#`, newlines and
more; inputs using those are lexical errors in the model but still fail in
CPython (at the walk or in `_eval`), with a different error kind at most. -/
def lexAlphabet (c : Char) : Bool :=
  c.isDigit || c.isAlpha || c = '_' ||
    c ∈ ['+', '-', '*', '/', '%', '(', ')', '.', ' ', '\t']

/-- Splits a leading run of decimal digits. -/
def scanDigits (cs : List Char) : List Char × List Char :=
  (cs.takeWhile Char.isDigit, cs.dropWhile Char.isDigit)

/-- Numeric value of a digit run. -/
def digitsVal (ds : List Char) : ℕ :=
  ds.foldl (fun a c => 10 * a + (c.toNat - 48)) 0

/-- Consumes a well-formed exponent part `e`/`E` (optional sign, then at
least one digit); returns `none` and consumes nothing otherwise. -/
def scanExponent (cs : List Char) : Option (ℤ × List Char) :=
  match cs with
  | 'e' :: rest | 'E' :: rest =>
    match rest with
    | '+' :: r2 =>
      match scanDigits r2 with
      | ([], _) => none
      | (ds, r3) => some ((digitsVal ds : ℤ), r3)
    | '-' :: r2 =>
      match scanDigits r2 with
      | ([], _) => none
      | (ds, r3) => some (-(digitsVal ds : ℤ), r3)
    | _ =>
      match scanDigits rest with
      | ([], _) => none
      | (ds, r3) => some ((digitsVal ds : ℤ), r3)
  | _ => none

/-- Decimal integer literals other than zero may not start with `0`
(CPython: `leading zeros in decimal integer literals are not permitted`);
a run of zeros alone is the literal 0. -/
def leadingZeroBad : List Char → Bool
| '0' :: rest => rest.any (fun c => c ≠ '0')
| _ => false

/-- The rational value of a float literal with integer digits `ip`,
fraction digits `fp` and exponent `ex` (exact; CPython rounds to binary64,
which is not modelled). -/
def floatVal (ip fp : List Char) (ex : ℤ) : ℚ :=
  let m : ℤ := (digitsVal ip * 10 ^ fp.length + digitsVal fp : ℕ)
  if 0 ≤ ex then Rat.divInt (m * 10 ^ ex.toNat) ((10 : ℤ) ^ fp.length)
  else Rat.divInt m ((10 : ℤ) ^ fp.length * (10 : ℤ) ^ (-ex).toNat)

/-- Scans one numeric literal (decimal integer or float with optional
fraction and exponent marker) from the head of the input. -/
def scanNumber (cs : List Char) : Except Unit (Token × List Char) :=
  let (ip, r1) := scanDigits cs
  match r1 with
  | '.' :: r2 =>
    let (fp, r3) := scanDigits r2
    if ip.isEmpty && fp.isEmpty then .error ()
    else
      match scanExponent r3 with
      | some (ex, r4) => .ok (.floatTok (floatVal ip fp ex), r4)
      | none => .ok (.floatTok (floatVal ip fp 0), r3)
  | _ =>
    match scanExponent r1 with
    | some (ex, r4) =>
      if ip.isEmpty then .error () else .ok (.floatTok (floatVal ip [] ex), r4)
    | none =>
      if ip.isEmpty then .error ()
      else if leadingZeroBad ip then .error ()
      else .ok (.intTok (digitsVal ip), r1)

/-- Identifier characters (ASCII subset of Python's identifier syntax). -/
def isIdentChar (c : Char) : Bool := c.isAlpha || c.isDigit || c = '_'

/-- Identifier start characters. -/
def isIdentStart (c : Char) : Bool := c.isAlpha || c = '_'

/-- The fueled tokenizer loop: whitespace is skipped, numbers, identifiers
and the arithmetic operator/parenthesis/dot tokens are produced.  Each step
consumes at least one character, so fuel `length + 1` never runs out. -/
def lexRun : ℕ → List Char → Except Unit (List Token)
| 0, _ => .error ()
| _ + 1, [] => .ok []
| f + 1, c :: cs =>
  if c = ' ' || c = '\t' then lexRun f cs
  else if c.isDigit || (c = '.' && (cs.headD ' ').isDigit) then
    match scanNumber (c :: cs) with
    | .error e => .error e
    | .ok (t, rest) =>
      match lexRun f rest with
      | .error e => .error e
      | .ok ts => .ok (t :: ts)
  else if isIdentStart c then
    match lexRun f ((c :: cs).dropWhile isIdentChar) with
    | .error e => .error e
    | .ok ts => .ok (.ident ⟨(c :: cs).takeWhile isIdentChar⟩ :: ts)
  else
    match c, cs with
    | '*', '*' :: cs' =>
      match lexRun f cs' with
      | .error e => .error e
      | .ok ts => .ok (.dstar :: ts)
    | '/', '/' :: cs' =>
      match lexRun f cs' with
      | .error e => .error e
      | .ok ts => .ok (.dslash :: ts)
    | _, _ =>
      let tok? : Option Token :=
        if c = '+' then some .plus
        else if c = '-' then some .minus
        else if c = '*' then some .star
        else if c = '/' then some .slash
        else if c = '%' then some .percent
        else if c = '(' then some .lparen
        else if c = ')' then some .rparen
        else if c = '.' then some .dot
        else none
      match tok? with
      | none => .error ()
      | some t =>
        match lexRun f cs with
        | .error e => .error e
        | .ok ts => .ok (t :: ts)

/-- The tokenizer: characters outside the modelled alphabet are lexical
errors (checked up front; CPython reports the first offending position,
which is not modelled). -/
def lex (cs : List Char) : Except Unit (List Token) :=
  if cs.all lexAlphabet then lexRun (cs.length + 1) cs else .error ()

/-- Classifies an identifier token: the keyword literals become constants
(CPython parses `True`/`False`/`None` as `ast.Constant`), anything else is a
`Name` node. -/
def identAtom (s : String) : PyExpr :=
  if s = (r"True") then .constant (.bool true)
  else if s = (r"False") then .constant (.bool false)
  else if s = (r"None") then .constant .none
  else .name

mutual

/-- Parses `sum := term (('+' | '-') term)*` — Python's lowest modelled
precedence level (left-associative). -/
def parseSum : ℕ → List Token → Except Unit (PyExpr × List Token)
| 0, _ => .error ()
| f + 1, ts =>
  match parseTerm f ts with
  | .error e => .error e
  | .ok (e, ts1) => parseSumTail f e ts1

/-- Left-associative continuation of `parseSum`. -/
def parseSumTail : ℕ → PyExpr → List Token → Except Unit (PyExpr × List Token)
| 0, _, _ => .error ()
| f + 1, acc, ts =>
  match ts with
  | .plus :: ts1 =>
    match parseTerm f ts1 with
    | .error e => .error e
    | .ok (e, ts2) => parseSumTail f (.binOp .add acc e) ts2
  | .minus :: ts1 =>
    match parseTerm f ts1 with
    | .error e => .error e
    | .ok (e, ts2) => parseSumTail f (.binOp .sub acc e) ts2
  | _ => .ok (acc, ts)

/-- Parses `term := factor (('*' | '/' | '//' | '%') factor)*`
(left-associative). -/
def parseTerm : ℕ → List Token → Except Unit (PyExpr × List Token)
| 0, _ => .error ()
| f + 1, ts =>
  match parseFactor f ts with
  | .error e => .error e
  | .ok (e, ts1) => parseTermTail f e ts1

/-- Left-associative continuation of `parseTerm`. -/
def parseTermTail : ℕ → PyExpr → List Token → Except Unit (PyExpr × List Token)
| 0, _, _ => .error ()
| f + 1, acc, ts =>
  match ts with
  | .star :: ts1 =>
    match parseFactor f ts1 with
    | .error e => .error e
    | .ok (e, ts2) => parseTermTail f (.binOp .mult acc e) ts2
  | .slash :: ts1 =>
    match parseFactor f ts1 with
    | .error e => .error e
    | .ok (e, ts2) => parseTermTail f (.binOp .div acc e) ts2
  | .dslash :: ts1 =>
    match parseFactor f ts1 with
    | .error e => .error e
    | .ok (e, ts2) => parseTermTail f (.binOp .floorDiv acc e) ts2
  | .percent :: ts1 =>
    match parseFactor f ts1 with
    | .error e => .error e
    | .ok (e, ts2) => parseTermTail f (.binOp .mod acc e) ts2
  | _ => .ok (acc, ts)

/-- Parses `factor := ('+' | '-') factor | power`: unary sign binds looser
than `**`, so `-2 ** 2` parses as `USub (Pow 2 2)`. -/
def parseFactor : ℕ → List Token → Except Unit (PyExpr × List Token)
| 0, _ => .error ()
| f + 1, ts =>
  match ts with
  | .plus :: ts1 =>
    match parseFactor f ts1 with
    | .error e => .error e
    | .ok (e, ts2) => .ok (.unaryOp .uadd e, ts2)
  | .minus :: ts1 =>
    match parseFactor f ts1 with
    | .error e => .error e
    | .ok (e, ts2) => .ok (.unaryOp .usub e, ts2)
  | _ => parsePower f ts

/-- Parses `power := postfix ('**' factor)?`: the right operand of `**` is
a `factor`, making `**` right-associative and able to take a signed
exponent. -/
def parsePower : ℕ → List Token → Except Unit (PyExpr × List Token)
| 0, _ => .error ()
| f + 1, ts =>
  match parsePostfix f ts with
  | .error e => .error e
  | .ok (a, ts1) =>
    match ts1 with
    | .dstar :: ts2 =>
      match parseFactor f ts2 with
      | .error e => .error e
      | .ok (b, ts3) => .ok (.binOp .pow a b, ts3)
    | _ => .ok (a, ts1)

/-- Parses an atom followed by call/attribute trailers
(`primary := atom ('(' [sum] ')' | '.' NAME)*`).  The call argument is
parsed for syntax but not retained (see `PyExpr`). -/
def parsePostfix : ℕ → List Token → Except Unit (PyExpr × List Token)
| 0, _ => .error ()
| f + 1, ts =>
  match parseAtom f ts with
  | .error e => .error e
  | .ok (a, ts1) => parseTrailers f a ts1

/-- Trailer loop of `parsePostfix`. -/
def parseTrailers : ℕ → PyExpr → List Token → Except Unit (PyExpr × List Token)
| 0, _, _ => .error ()
| f + 1, acc, ts =>
  match ts with
  | .lparen :: .rparen :: ts1 => parseTrailers f (.call acc) ts1
  | .lparen :: ts1 =>
    match parseSum f ts1 with
    | .error e => .error e
    | .ok (_, .rparen :: ts2) => parseTrailers f (.call acc) ts2
    | .ok _ => .error ()
  | .dot :: .ident _ :: ts1 => parseTrailers f (.attr acc) ts1
  | .dot :: _ => .error ()
  | _ => .ok (acc, ts)

/-- Parses `atom := NUMBER | NAME | keyword-literal | '(' sum ')'`. -/
def parseAtom : ℕ → List Token → Except Unit (PyExpr × List Token)
| 0, _ => .error ()
| f + 1, ts =>
  match ts with
  | .intTok n :: ts1 => .ok (.constant (.int n), ts1)
  | .floatTok q :: ts1 => .ok (.constant (.float q), ts1)
  | .ident s :: ts1 => .ok (identAtom s, ts1)
  | .lparen :: ts1 =>
    match parseSum f ts1 with
    | .error e => .error e
    | .ok (e, .rparen :: ts2) => .ok (e, ts2)
    | .ok _ => .error ()
  | _ => .error ()

end

/-- Model of `ast.parse(expr, mode="eval")` on the modelled fragment: the
whole input must tokenize and parse as a single expression with nothing
left over (empty input, unmatched parentheses and trailing tokens are
syntax errors).  The `ast.Expression` wrapper node is elided: the walk
accepts it and `_eval` unwraps it unconditionally. -/
def pyParse (s : String) : Except EvalErr PyExpr :=
  match lex s.data with
  | .error _ => .error .syntaxError
  | .ok toks =>
    match parseSum (8 * (toks.length + 1)) toks with
    | .ok (e, []) => .ok e
    | .ok _ => .error .syntaxError
    | .error _ => .error .syntaxError

/-- The entry point `evaluate_expr` of `src/1.py` lines 65-90 (and
`src/app.py` lines 34-49): parse, validation walk, then `_eval`.
`src/1.py` re-raises `SyntaxError` as `ValueError`; both surface here as
`EvalErr.syntaxError`. -/
def evaluate_expr (s : String) : Except EvalErr Value :=
  match pyParse s with
  | .error e => .error e
  | .ok t =>
    match walkAst t with
    | .error e => .error e
    | .ok _ => _eval t


/-- Whether a tree contains an identifier (`Name`), a function call or an
attribute access anywhere (`attr` models `ast.Attribute`). -/
def containsUnsafe : PyExpr → Bool
| .name => true
| .call _ => true
| .attr _ => true
| .binOp _ l r => containsUnsafe l || containsUnsafe r
| .unaryOp _ e => containsUnsafe e
| .constant _ => false

/-- Whether a tree contains a construct the validation walk is written to
reject: a blacklisted node kind (`Name`, `Call`, `Attribute`, ...) or a
`BinOp`/`UnaryOp` whose operator is outside the whitelist dictionaries. -/
def containsDisallowed : PyExpr → Bool
| .name => true
| .call _ => true
| .attr _ => true
| .binOp op l r => (_BIN_OPS op).isNone || containsDisallowed l || containsDisallowed r
| .unaryOp op e => (_UNARY_OPS op).isNone || containsDisallowed e
| .constant _ => false

/-- Whether every literal in a tree is of integer kind (`int` or `bool`;
Python's `bool` is an `int`).  Nodes that `_eval` rejects outright are not
constrained: the theorems using this predicate are conditioned on
successful evaluation. -/
def intLiteralsOnly : PyExpr → Bool
| .constant (.int _) => true
| .constant (.bool _) => true
| .constant _ => false
| .binOp _ l r => intLiteralsOnly l && intLiteralsOnly r
| .unaryOp _ e => intLiteralsOnly e
| _ => true

/-- Whether a tree contains no true-division (`/`) node. -/
def noDiv : PyExpr → Bool
| .binOp .div _ _ => false
| .binOp _ l r => noDiv l && noDiv r
| .unaryOp _ e => noDiv e
| _ => true

/-- Whether no `**` node in the tree has a negative integer exponent (the
exponent is judged by evaluating the right operand, matching the runtime
dispatch of `operator.pow`). -/
def noNegExp : PyExpr → Bool
| .binOp .pow l r =>
  noNegExp l && noNegExp r &&
    (match _eval r with
     | .ok (.int n) => decide (0 ≤ n)
     | _ => true)
| .binOp _ l r => noNegExp l && noNegExp r
| .unaryOp _ e => noNegExp e
| _ => true

/-- Whether a tree contains a true-division node or a float literal. -/
def hasDivOrFloat : PyExpr → Bool
| .constant (.float _) => true
| .constant _ => false
| .binOp .div _ _ => true
| .binOp _ l r => hasDivOrFloat l || hasDivOrFloat r
| .unaryOp _ e => hasDivOrFloat e
| _ => false

/-- The validation walk rejects every tree containing a blacklisted node or
a non-whitelisted operator. -/
theorem walkAst_error_of_containsDisallowed :
    ∀ t : PyExpr, containsDisallowed t = true → ∃ e, walkAst t = .error e := by
  intro t
  induction t with
  | constant c => intro h; exact absurd h (by simp [containsDisallowed])
  | binOp op l r ihl ihr =>
    intro h
    by_cases hop : (_BIN_OPS op).isNone = true
    · exact ⟨EvalErr.disallowedOperator, by simp [walkAst, hop]⟩
    · simp only [Bool.not_eq_true] at hop
      have h' : containsDisallowed l = true ∨ containsDisallowed r = true := by
        simp only [containsDisallowed, Bool.or_eq_true, hop] at h
        tauto
      cases hl : walkAst l with
      | error e => exact ⟨e, by simp [walkAst, hop, hl]⟩
      | ok u =>
        cases h' with
        | inl hcl =>
          obtain ⟨e, he⟩ := ihl hcl
          exact absurd (he.symm.trans hl) (by simp)
        | inr hcr =>
          obtain ⟨e, he⟩ := ihr hcr
          exact ⟨e, by simp [walkAst, hop, hl, he]⟩
  | unaryOp op e ih =>
    intro h
    by_cases hop : (_UNARY_OPS op).isNone = true
    · exact ⟨EvalErr.disallowedUnaryOperator, by simp [walkAst, hop]⟩
    · simp only [Bool.not_eq_true] at hop
      have h' : containsDisallowed e = true := by
        simp only [containsDisallowed, Bool.or_eq_true, hop] at h
        tauto
      obtain ⟨e', he⟩ := ih h'
      exact ⟨e', by simp [walkAst, hop, he]⟩
  | name => intro _; exact ⟨EvalErr.disallowedComponent, rfl⟩
  | call f ihf => intro _; exact ⟨EvalErr.disallowedComponent, rfl⟩
  | attr v ihv => intro _; exact ⟨EvalErr.disallowedComponent, rfl⟩

/-- An unsafe construct is in particular a disallowed one. -/
theorem containsDisallowed_of_containsUnsafe :
    ∀ t : PyExpr, containsUnsafe t = true → containsDisallowed t = true := by
  intro t
  induction t with
  | constant c => intro h; exact absurd h (by simp [containsUnsafe])
  | binOp op l r ihl ihr =>
    intro h
    simp only [containsUnsafe, Bool.or_eq_true] at h
    simp only [containsDisallowed, Bool.or_eq_true]
    tauto
  | unaryOp op e ih =>
    intro h
    simp only [containsUnsafe] at h
    simp only [containsDisallowed, Bool.or_eq_true]
    tauto
  | name => intro h; rfl
  | call f ihf => intro h; rfl
  | attr v ihv => intro h; rfl

/-- C1 (counterexample): the claim says every input containing a character
outside digits/operators/parentheses/whitespace/decimal-point returns an
error, but the exponent marker `e` is such a character and `1e5` is a valid
float literal: `evaluate_expr` computes `100000.0` instead of erroring. -/
theorem C1_counterexample :
    evaluate_expr (r"1e5") = .ok (.float 100000) ∧
      (Value.float 100000).isNumber = true := by
  constructor
  · decide
  · decide

/-- C1 (amended): for every input whose parse tree contains an identifier
(`Name`), function-call syntax (`Call`) or attribute access (`Attribute`),
`evaluate_expr` returns an error and never evaluates the construct — the
validation walk rejects the tree before `_eval` runs.  The character-class
formulation is what fails (see the counterexample): letters can occur in
valid numeric and keyword literals. -/
theorem C1_amended :
    ∀ (s : String) (t : PyExpr), pyParse s = .ok t → containsUnsafe t = true →
      ∃ e, evaluate_expr s = .error e := by
  intro s t hp hc
  obtain ⟨e, he⟩ :=
    walkAst_error_of_containsDisallowed t (containsDisallowed_of_containsUnsafe t hc)
  exact ⟨e, by simp [evaluate_expr, hp, he]⟩

/-- C1 (witness): the identifier input `x` parses to a `Name` node and is
rejected. -/
theorem C1_witness : ∃ e, evaluate_expr (r"x") = .error e :=
  C1_amended (r"x") PyExpr.name (by decide) (by decide)

/-- C2 (counterexample): the claim says any literal type other than
int/float is rejected by the validator pass before evaluation begins, but
the parsed tree of `None` — a `Constant` of non-numeric type — passes the
walk (`Constant` is on the allowed tuple, its payload is never inspected);
the rejection only happens later, inside `_eval`. -/
theorem C2_counterexample :
    pyParse (r"None") = .ok (.constant PyConst.none) ∧
      walkAst (.constant PyConst.none) = .ok () ∧
      _eval (.constant PyConst.none) = .error .unsupportedConstant := by
  refine ⟨by decide, by decide, by decide⟩

/-- C2 (amended): the validator rejects exactly the blacklisted node kinds
(`Name`, `Call`, `Attribute`, ...) and `BinOp`/`UnaryOp` nodes whose
operator is outside the whitelist dictionaries; other non-allow-listed
constructs (such as non-numeric constants) pass the walk and are rejected
only by the evaluator. -/
theorem C2_amended :
    ∀ t : PyExpr, containsDisallowed t = true → ∃ e, walkAst t = .error e :=
  walkAst_error_of_containsDisallowed

/-- C2 (witness): a `BinOp` with the non-whitelisted operator `MatMult` is
rejected by the walk. -/
theorem C2_witness :
    ∃ e, walkAst (.binOp .matMult (.constant (.int 1)) (.constant (.int 1))) = .error e :=
  C2_amended (.binOp .matMult (.constant (.int 1)) (.constant (.int 1))) (by decide)

/-- The kernel-evaluable addition agrees with `+` on `ℚ`. -/
theorem qAdd_eq (a b : ℚ) : qAdd a b = a + b := by
  rw [qAdd, Rat.divInt_eq_div]
  conv_rhs => rw [← Rat.num_div_den a, ← Rat.num_div_den b]
  have ha : ((a.den : ℚ)) ≠ 0 := Nat.cast_ne_zero.mpr a.den_nz
  have hb : ((b.den : ℚ)) ≠ 0 := Nat.cast_ne_zero.mpr b.den_nz
  field_simp

/-- The kernel-evaluable subtraction agrees with `-` on `ℚ`. -/
theorem qSub_eq (a b : ℚ) : qSub a b = a - b := by
  rw [qSub, Rat.divInt_eq_div]
  conv_rhs => rw [← Rat.num_div_den a, ← Rat.num_div_den b]
  have ha : ((a.den : ℚ)) ≠ 0 := Nat.cast_ne_zero.mpr a.den_nz
  have hb : ((b.den : ℚ)) ≠ 0 := Nat.cast_ne_zero.mpr b.den_nz
  field_simp
  ring

/-- The kernel-evaluable multiplication agrees with `*` on `ℚ`. -/
theorem qMul_eq (a b : ℚ) : qMul a b = a * b := by
  rw [qMul, Rat.divInt_eq_div]
  conv_rhs => rw [← Rat.num_div_den a, ← Rat.num_div_den b]
  have ha : ((a.den : ℚ)) ≠ 0 := Nat.cast_ne_zero.mpr a.den_nz
  have hb : ((b.den : ℚ)) ≠ 0 := Nat.cast_ne_zero.mpr b.den_nz
  field_simp

/-- The kernel-evaluable division agrees with `/` on `ℚ`. -/
theorem qDiv_eq (a b : ℚ) : qDiv a b = a / b := by
  rcases eq_or_ne b 0 with hb0 | hb0
  · subst hb0; simp [qDiv, Rat.divInt_eq_div]
  · rw [qDiv, Rat.divInt_eq_div]
    conv_rhs => rw [← Rat.num_div_den a, ← Rat.num_div_den b]
    have ha : ((a.den : ℚ)) ≠ 0 := Nat.cast_ne_zero.mpr a.den_nz
    have hb : ((b.den : ℚ)) ≠ 0 := Nat.cast_ne_zero.mpr b.den_nz
    have hbn : ((b.num : ℚ)) ≠ 0 := by simpa using Rat.num_ne_zero.mpr hb0
    field_simp

/-- The kernel-evaluable integer power agrees with `zpow` on `ℚ`. -/
theorem qPowInt_eq (q : ℚ) (n : ℤ) : qPowInt q n = q ^ n := by
  rcases le_or_lt 0 n with hn | hn
  · obtain ⟨k, rfl⟩ : ∃ k : ℕ, n = (k : ℤ) := ⟨n.toNat, (Int.toNat_of_nonneg hn).symm⟩
    rw [qPowInt, if_pos hn, Rat.divInt_eq_div, zpow_natCast]
    simp only [Int.toNat_natCast]
    push_cast
    rw [← div_pow, Rat.num_div_den]
  · have hkpos : 0 < (-n).toNat := by omega
    have hnk : n = -(((-n).toNat : ℕ) : ℤ) := by omega
    rw [qPowInt, if_neg (not_le.mpr hn), Rat.divInt_eq_div]
    rw [hnk, zpow_neg, zpow_natCast]
    simp only [← hnk]
    push_cast
    by_cases hq : q.num = 0
    · have hq0 : q = 0 := Rat.num_eq_zero.mp hq
      subst hq0
      simp [zero_pow hkpos.ne']
    · have hqp : q ^ (-n).toNat = (q.num : ℚ) ^ (-n).toNat / (q.den : ℚ) ^ (-n).toNat := by
        rw [← div_pow, Rat.num_div_den]
      rw [hqp, inv_div]

/-- Sign of Python's floor-consistent integer remainder: it is zero or has
the sign of the divisor. -/
theorem fmod_sign (a b : ℤ) (hb : b ≠ 0) :
    Int.fmod a b = 0 ∨ (0 < Int.fmod a b ↔ 0 < b) := by
  rcases lt_trichotomy b 0 with hneg | rfl | hpos
  · have h : Int.fmod a b ≤ 0 := by
      cases a with
      | ofNat m =>
        cases m with
        | zero => simp [Int.fmod]
        | succ m =>
          cases b with
          | ofNat k =>
            simp only [Int.ofNat_eq_coe] at hneg
            omega
          | negSucc k =>
            show Int.subNatNat (m % (k+1)) k ≤ 0
            rw [Int.subNatNat_eq_coe]
            have := @Nat.mod_lt m (k+1) (by omega)
            omega
      | negSucc m =>
        cases b with
        | ofNat k =>
          simp only [Int.ofNat_eq_coe] at hneg
          omega
        | negSucc k =>
          show -Int.ofNat ((m+1) % (k+1)) ≤ 0
          simp only [Int.ofNat_eq_coe]
          omega
    rcases eq_or_lt_of_le h with heq | hlt
    · exact Or.inl heq
    · exact Or.inr (by constructor <;> intro <;> omega)
  · exact absurd rfl hb
  · rcases eq_or_lt_of_le (Int.fmod_nonneg' a hpos) with heq | hlt
    · exact Or.inl heq.symm
    · exact Or.inr (by constructor <;> intro <;> omega)

/-- Two integer-kind operands give an exact integer under the shared
add/sub/mul dispatch. -/
theorem arith2_int (fi : ℤ → ℤ → ℤ) (fq : ℚ → ℚ → ℚ) (a b : Value)
    (ha : a.isIntKind = true) (hb : b.isIntKind = true) :
    arith2 fi fq a b = .ok (.int (fi a.intOf b.intOf)) := by
  cases a <;> cases b <;> simp_all [arith2, Value.isIntKind, Value.isFloatKind]

/-- A float-kind operand makes the shared add/sub/mul dispatch produce a
float-or-complex result. -/
theorem arith2_floatish (fi : ℤ → ℤ → ℤ) (fq : ℚ → ℚ → ℚ) (a b : Value) (v : Value)
    (h : a.isFloatish = true ∨ b.isFloatish = true)
    (hok : arith2 fi fq a b = .ok v) : v.isFloatish = true := by
  cases a <;> cases b <;>
    simp_all [arith2, Value.isFloatish, Value.isFloatKind] <;>
    (subst hok; rfl)

/-- Integer floor division of integer-kind operands stays integer-kind. -/
theorem pyFloorDiv_int_ok (a b : Value) (v : Value)
    (ha : a.isIntKind = true) (hb : b.isIntKind = true)
    (hok : pyFloorDiv a b = .ok v) : v.isIntKind = true := by
  cases a <;> cases b <;> simp_all [pyFloorDiv, Value.isIntKind] <;>
    (split at hok <;> simp_all) <;> (subst hok; rfl)

/-- Integer remainder of integer-kind operands stays integer-kind. -/
theorem pyMod_int_ok (a b : Value) (v : Value)
    (ha : a.isIntKind = true) (hb : b.isIntKind = true)
    (hok : pyMod a b = .ok v) : v.isIntKind = true := by
  cases a <;> cases b <;> simp_all [pyMod, Value.isIntKind] <;>
    (split at hok <;> simp_all) <;> (subst hok; rfl)

/-- Exponentiation of integer-kind operands with a non-negative exponent
stays integer-kind. -/
theorem pyPow_int_nonneg_ok (a b : Value) (v : Value)
    (ha : a.isIntKind = true) (hb : b.isIntKind = true) (hexp : 0 ≤ b.intOf)
    (hok : pyPow a b = .ok v) : v.isIntKind = true := by
  cases a <;> cases b <;> simp_all [pyPow, Value.isIntKind] <;> (subst hok; rfl)

/-- Negation preserves integer kind. -/
theorem pyNeg_int (v : Value) (h : v.isIntKind = true) : (pyNeg v).isIntKind = true := by
  cases v <;> simp_all [pyNeg, Value.isIntKind]

/-- Negation preserves float-or-complex kind. -/
theorem pyNeg_floatish (v : Value) (h : v.isFloatish = true) :
    (pyNeg v).isFloatish = true := by
  cases v <;> simp_all [pyNeg, Value.isFloatish]

/-- True division always yields a float-or-complex value when it succeeds. -/
theorem pyDiv_ok_floatish (a b : Value) (v : Value)
    (hok : pyDiv a b = .ok v) : v.isFloatish = true := by
  cases a <;> cases b <;> simp_all [pyDiv] <;>
    (try split at hok) <;> simp_all <;> (subst hok; rfl)

/-- Floor division with a float-or-complex operand cannot produce an
integer-kind result. -/
theorem pyFloorDiv_ok_floatish (a b : Value) (v : Value)
    (h : a.isFloatish = true ∨ b.isFloatish = true)
    (hok : pyFloorDiv a b = .ok v) : v.isFloatish = true := by
  cases a <;> cases b <;> simp_all [pyFloorDiv, Value.isFloatish, Value.isIntKind] <;>
    (try split at hok) <;> simp_all <;> (subst hok; rfl)

/-- Remainder with a float-or-complex operand cannot produce an
integer-kind result. -/
theorem pyMod_ok_floatish (a b : Value) (v : Value)
    (h : a.isFloatish = true ∨ b.isFloatish = true)
    (hok : pyMod a b = .ok v) : v.isFloatish = true := by
  cases a <;> cases b <;> simp_all [pyMod, Value.isFloatish, Value.isIntKind] <;>
    (try split at hok) <;> simp_all <;> (subst hok; rfl)

/-- Exponentiation with a float-or-complex operand produces a
float-or-complex result when it succeeds. -/
theorem pyPow_ok_floatish (a b : Value) (v : Value)
    (h : a.isFloatish = true ∨ b.isFloatish = true)
    (hok : pyPow a b = .ok v) : v.isFloatish = true := by
  cases a <;> cases b <;> simp_all [pyPow, Value.isFloatish, Value.isIntKind] <;>
    (repeat' split at hok) <;> simp_all <;> (subst hok; rfl)

/-- Evaluation of a tree whose literals are integer-kind, with no `/` and
no `**` with negative exponent, yields an integer-kind value. -/
theorem eval_intKind : ∀ t : PyExpr,
    intLiteralsOnly t = true → noDiv t = true → noNegExp t = true →
    ∀ v, _eval t = .ok v → v.isIntKind = true := by
  intro t
  induction t with
  | constant c =>
    intro hint _ _ v hev
    cases c with
    | int n => simp only [_eval] at hev; injection hev with h; subst h; rfl
    | bool b => simp only [_eval] at hev; injection hev with h; subst h; rfl
    | float q => simp [intLiteralsOnly] at hint
    | none => simp [_eval] at hev
  | binOp op l r ihl ihr =>
    intro hint hnd hne v hev
    simp only [_eval] at hev
    cases hl : _eval l with
    | error e => simp [hl] at hev
    | ok lv =>
      simp only [hl] at hev
      cases hr : _eval r with
      | error e => simp [hr] at hev
      | ok rv =>
        simp only [hr] at hev
        have hil : intLiteralsOnly l = true ∧ intLiteralsOnly r = true := by
          simpa [intLiteralsOnly, Bool.and_eq_true] using hint
        cases op with
        | add =>
          obtain ⟨hndl, hndr⟩ : noDiv l = true ∧ noDiv r = true := by
            simpa [noDiv, Bool.and_eq_true] using hnd
          obtain ⟨hnel, hner⟩ : noNegExp l = true ∧ noNegExp r = true := by
            simpa [noNegExp, Bool.and_eq_true] using hne
          have klv := ihl hil.1 hndl hnel lv hl
          have krv := ihr hil.2 hndr hner rv hr
          simp only [_BIN_OPS] at hev
          cases hf : pyAdd lv rv with
          | error e => simp [hf] at hev
          | ok w =>
            simp only [hf] at hev
            injection hev with h; subst h
            have heq := (arith2_int (· + ·) qAdd lv rv klv krv).symm.trans hf
            injection heq with h; rw [← h]; rfl
        | sub =>
          obtain ⟨hndl, hndr⟩ : noDiv l = true ∧ noDiv r = true := by
            simpa [noDiv, Bool.and_eq_true] using hnd
          obtain ⟨hnel, hner⟩ : noNegExp l = true ∧ noNegExp r = true := by
            simpa [noNegExp, Bool.and_eq_true] using hne
          have klv := ihl hil.1 hndl hnel lv hl
          have krv := ihr hil.2 hndr hner rv hr
          simp only [_BIN_OPS] at hev
          cases hf : pySub lv rv with
          | error e => simp [hf] at hev
          | ok w =>
            simp only [hf] at hev
            injection hev with h; subst h
            have heq := (arith2_int (· - ·) qSub lv rv klv krv).symm.trans hf
            injection heq with h; rw [← h]; rfl
        | mult =>
          obtain ⟨hndl, hndr⟩ : noDiv l = true ∧ noDiv r = true := by
            simpa [noDiv, Bool.and_eq_true] using hnd
          obtain ⟨hnel, hner⟩ : noNegExp l = true ∧ noNegExp r = true := by
            simpa [noNegExp, Bool.and_eq_true] using hne
          have klv := ihl hil.1 hndl hnel lv hl
          have krv := ihr hil.2 hndr hner rv hr
          simp only [_BIN_OPS] at hev
          cases hf : pyMul lv rv with
          | error e => simp [hf] at hev
          | ok w =>
            simp only [hf] at hev
            injection hev with h; subst h
            have heq := (arith2_int (· * ·) qMul lv rv klv krv).symm.trans hf
            injection heq with h; rw [← h]; rfl
        | div => simp [noDiv] at hnd
        | floorDiv =>
          obtain ⟨hndl, hndr⟩ : noDiv l = true ∧ noDiv r = true := by
            simpa [noDiv, Bool.and_eq_true] using hnd
          obtain ⟨hnel, hner⟩ : noNegExp l = true ∧ noNegExp r = true := by
            simpa [noNegExp, Bool.and_eq_true] using hne
          have klv := ihl hil.1 hndl hnel lv hl
          have krv := ihr hil.2 hndr hner rv hr
          simp only [_BIN_OPS] at hev
          cases hf : pyFloorDiv lv rv with
          | error e => simp [hf] at hev
          | ok w =>
            simp only [hf] at hev
            injection hev with h; subst h
            exact pyFloorDiv_int_ok lv rv w klv krv hf
        | mod =>
          obtain ⟨hndl, hndr⟩ : noDiv l = true ∧ noDiv r = true := by
            simpa [noDiv, Bool.and_eq_true] using hnd
          obtain ⟨hnel, hner⟩ : noNegExp l = true ∧ noNegExp r = true := by
            simpa [noNegExp, Bool.and_eq_true] using hne
          have klv := ihl hil.1 hndl hnel lv hl
          have krv := ihr hil.2 hndr hner rv hr
          simp only [_BIN_OPS] at hev
          cases hf : pyMod lv rv with
          | error e => simp [hf] at hev
          | ok w =>
            simp only [hf] at hev
            injection hev with h; subst h
            exact pyMod_int_ok lv rv w klv krv hf
        | pow =>
          obtain ⟨hndl, hndr⟩ : noDiv l = true ∧ noDiv r = true := by
            simpa [noDiv, Bool.and_eq_true] using hnd
          have hne' := hne
          simp only [noNegExp, Bool.and_eq_true, hr] at hne'
          obtain ⟨⟨hnel, hner⟩, hguard⟩ := hne'
          have klv := ihl hil.1 hndl hnel lv hl
          have krv := ihr hil.2 hndr hner rv hr
          have hexp : 0 ≤ rv.intOf := by
            cases rv with
            | int n => simpa [Value.intOf] using hguard
            | bool b => cases b <;> simp [Value.intOf]
            | float q => simp [Value.isIntKind] at krv
            | complexX => simp [Value.isIntKind] at krv
          simp only [_BIN_OPS] at hev
          cases hf : pyPow lv rv with
          | error e => simp [hf] at hev
          | ok w =>
            simp only [hf] at hev
            injection hev with h; subst h
            exact pyPow_int_nonneg_ok lv rv w klv krv hexp hf
        | matMult => simp [_BIN_OPS] at hev
        | bitOr => simp [_BIN_OPS] at hev
        | bitXor => simp [_BIN_OPS] at hev
        | bitAnd => simp [_BIN_OPS] at hev
        | lshift => simp [_BIN_OPS] at hev
        | rshift => simp [_BIN_OPS] at hev
  | unaryOp op e ih =>
    intro hint hnd hne v hev
    simp only [_eval] at hev
    cases he : _eval e with
    | error err => simp [he] at hev
    | ok w =>
      simp only [he] at hev
      have hil : intLiteralsOnly e = true := by simpa [intLiteralsOnly] using hint
      have hndl : noDiv e = true := by simpa [noDiv] using hnd
      have hnel : noNegExp e = true := by simpa [noNegExp] using hne
      have kw := ih hil hndl hnel w he
      cases op with
      | uadd =>
        simp only [_UNARY_OPS] at hev
        injection hev with h; subst h; exact kw
      | usub =>
        simp only [_UNARY_OPS] at hev
        injection hev with h; subst h; exact pyNeg_int w kw
      | unot => simp [_UNARY_OPS] at hev
      | invert => simp [_UNARY_OPS] at hev
  | name => intro _ _ _ v hev; simp [_eval] at hev
  | call f ihf => intro _ _ _ v hev; simp [_eval] at hev
  | attr a iha => intro _ _ _ v hev; simp [_eval] at hev

/-- Evaluation of a tree containing a `/` node or a float literal yields a
float-or-complex value whenever it succeeds. -/
theorem eval_floatish : ∀ t : PyExpr, hasDivOrFloat t = true →
    ∀ v, _eval t = .ok v → v.isFloatish = true := by
  intro t
  induction t with
  | constant c =>
    intro hdf v hev
    cases c with
    | float q => simp only [_eval] at hev; injection hev with h; subst h; rfl
    | int n => simp [hasDivOrFloat] at hdf
    | bool b => simp [hasDivOrFloat] at hdf
    | none => simp [hasDivOrFloat] at hdf
  | binOp op l r ihl ihr =>
    intro hdf v hev
    simp only [_eval] at hev
    cases hl : _eval l with
    | error e => simp [hl] at hev
    | ok lv =>
      simp only [hl] at hev
      cases hr : _eval r with
      | error e => simp [hr] at hev
      | ok rv =>
        simp only [hr] at hev
        cases op with
        | div =>
          simp only [_BIN_OPS] at hev
          cases hf : pyDiv lv rv with
          | error e => simp [hf] at hev
          | ok w =>
            simp only [hf] at hev
            injection hev with h; subst h
            exact pyDiv_ok_floatish lv rv w hf
        | add =>
          have hk : lv.isFloatish = true ∨ rv.isFloatish = true := by
            rcases (by simpa [hasDivOrFloat, Bool.or_eq_true] using hdf :
                hasDivOrFloat l = true ∨ hasDivOrFloat r = true) with h | h
            · exact Or.inl (ihl h lv hl)
            · exact Or.inr (ihr h rv hr)
          simp only [_BIN_OPS] at hev
          cases hf : pyAdd lv rv with
          | error e => simp [hf] at hev
          | ok w =>
            simp only [hf] at hev
            injection hev with h; subst h
            exact arith2_floatish (· + ·) qAdd lv rv w hk hf
        | sub =>
          have hk : lv.isFloatish = true ∨ rv.isFloatish = true := by
            rcases (by simpa [hasDivOrFloat, Bool.or_eq_true] using hdf :
                hasDivOrFloat l = true ∨ hasDivOrFloat r = true) with h | h
            · exact Or.inl (ihl h lv hl)
            · exact Or.inr (ihr h rv hr)
          simp only [_BIN_OPS] at hev
          cases hf : pySub lv rv with
          | error e => simp [hf] at hev
          | ok w =>
            simp only [hf] at hev
            injection hev with h; subst h
            exact arith2_floatish (· - ·) qSub lv rv w hk hf
        | mult =>
          have hk : lv.isFloatish = true ∨ rv.isFloatish = true := by
            rcases (by simpa [hasDivOrFloat, Bool.or_eq_true] using hdf :
                hasDivOrFloat l = true ∨ hasDivOrFloat r = true) with h | h
            · exact Or.inl (ihl h lv hl)
            · exact Or.inr (ihr h rv hr)
          simp only [_BIN_OPS] at hev
          cases hf : pyMul lv rv with
          | error e => simp [hf] at hev
          | ok w =>
            simp only [hf] at hev
            injection hev with h; subst h
            exact arith2_floatish (· * ·) qMul lv rv w hk hf
        | floorDiv =>
          have hk : lv.isFloatish = true ∨ rv.isFloatish = true := by
            rcases (by simpa [hasDivOrFloat, Bool.or_eq_true] using hdf :
                hasDivOrFloat l = true ∨ hasDivOrFloat r = true) with h | h
            · exact Or.inl (ihl h lv hl)
            · exact Or.inr (ihr h rv hr)
          simp only [_BIN_OPS] at hev
          cases hf : pyFloorDiv lv rv with
          | error e => simp [hf] at hev
          | ok w =>
            simp only [hf] at hev
            injection hev with h; subst h
            exact pyFloorDiv_ok_floatish lv rv w hk hf
        | mod =>
          have hk : lv.isFloatish = true ∨ rv.isFloatish = true := by
            rcases (by simpa [hasDivOrFloat, Bool.or_eq_true] using hdf :
                hasDivOrFloat l = true ∨ hasDivOrFloat r = true) with h | h
            · exact Or.inl (ihl h lv hl)
            · exact Or.inr (ihr h rv hr)
          simp only [_BIN_OPS] at hev
          cases hf : pyMod lv rv with
          | error e => simp [hf] at hev
          | ok w =>
            simp only [hf] at hev
            injection hev with h; subst h
            exact pyMod_ok_floatish lv rv w hk hf
        | pow =>
          have hk : lv.isFloatish = true ∨ rv.isFloatish = true := by
            rcases (by simpa [hasDivOrFloat, Bool.or_eq_true] using hdf :
                hasDivOrFloat l = true ∨ hasDivOrFloat r = true) with h | h
            · exact Or.inl (ihl h lv hl)
            · exact Or.inr (ihr h rv hr)
          simp only [_BIN_OPS] at hev
          cases hf : pyPow lv rv with
          | error e => simp [hf] at hev
          | ok w =>
            simp only [hf] at hev
            injection hev with h; subst h
            exact pyPow_ok_floatish lv rv w hk hf
        | matMult => simp [_BIN_OPS] at hev
        | bitOr => simp [_BIN_OPS] at hev
        | bitXor => simp [_BIN_OPS] at hev
        | bitAnd => simp [_BIN_OPS] at hev
        | lshift => simp [_BIN_OPS] at hev
        | rshift => simp [_BIN_OPS] at hev
  | unaryOp op e ih =>
    intro hdf v hev
    simp only [_eval] at hev
    cases he : _eval e with
    | error err => simp [he] at hev
    | ok w =>
      simp only [he] at hev
      have hdfe : hasDivOrFloat e = true := by simpa [hasDivOrFloat] using hdf
      have kw := ih hdfe w he
      cases op with
      | uadd =>
        simp only [_UNARY_OPS] at hev
        injection hev with h; subst h; exact kw
      | usub =>
        simp only [_UNARY_OPS] at hev
        injection hev with h; subst h; exact pyNeg_floatish w kw
      | unot => simp [_UNARY_OPS] at hev
      | invert => simp [_UNARY_OPS] at hev
  | name => intro hdf; simp [hasDivOrFloat] at hdf
  | call f ihf => intro hdf; simp [hasDivOrFloat] at hdf
  | attr a iha => intro hdf; simp [hasDivOrFloat] at hdf

/-- C3 (counterexample): the claim says every input yields a Number or a
typed error, but Python's `**` with a negative base and non-integral
exponent returns a complex value: `(-8.0) ** 0.5` evaluates to a complex
number, which is neither an `int`/`float` Number nor an error. -/
theorem C3_counterexample :
    evaluate_expr (r"(-8.0) ** 0.5") = .ok .complexX ∧
      Value.complexX.isNumber = false := by
  refine ⟨by decide, by decide⟩

/-- C3 (amended): on every input string the evaluator returns a Number, or
a complex value (reachable only through `**` with negative base and
non-integral exponent), or a typed error — it is a total function into
`Except` and never escapes untyped.  Resource exhaustion (Python recursion
limits on deeply nested input, flagged open in the spec) is outside this
model. -/
theorem C3_amended :
    ∀ s : String,
      (∃ v, evaluate_expr s = .ok v ∧ (v.isNumber = true ∨ v = .complexX)) ∨
        ∃ e, evaluate_expr s = .error e := by
  intro s
  cases h : evaluate_expr s with
  | error e => exact Or.inr ⟨e, rfl⟩
  | ok v =>
    refine Or.inl ⟨v, rfl, ?_⟩
    cases v <;> simp [Value.isNumber]

/-- C4: dividing, floor-dividing or taking the remainder of any Number
operands with a zero right operand yields the wrapped `ZeroDivisionError`,
never a crash and never a silently propagated infinite value; end to end,
`10 / 0` produces that error. -/
theorem C4_div_by_zero :
    (∀ l r : Value, l.isNumber = true → r.isZero = true →
      pyDiv l r = .error .zeroDivision ∧ pyFloorDiv l r = .error .zeroDivision ∧
        pyMod l r = .error .zeroDivision) ∧
      evaluate_expr (r"10 / 0") = .error (.binOpError .zeroDivision) := by
  constructor
  · intro l r hl hr
    refine ⟨?_, ?_, ?_⟩ <;> cases l <;> cases r <;>
      simp_all [pyDiv, pyFloorDiv, pyMod, Value.isNumber, Value.isZero]
  · decide

/-- C4 (witness): `7` divided by `0` in all three operators. -/
theorem C4_witness :
    pyDiv (.int 7) (.int 0) = .error .zeroDivision ∧
      pyFloorDiv (.int 7) (.int 0) = .error .zeroDivision ∧
      pyMod (.int 7) (.int 0) = .error .zeroDivision :=
  C4_div_by_zero.1 (.int 7) (.int 0) (by decide) (by decide)

/-- Sign of the rational floor-consistent remainder: zero or the sign of
the divisor. -/
theorem ratMod_sign (A B : ℚ) (hB : B ≠ 0) :
    A - B * (⌊A / B⌋ : ℤ) = 0 ∨ (0 < A - B * (⌊A / B⌋ : ℤ) ↔ 0 < B) := by
  have key : A - B * (⌊A / B⌋ : ℤ) = B * Int.fract (A / B) := by
    rw [Int.fract]
    field_simp
  rw [key]
  rcases eq_or_lt_of_le (Int.fract_nonneg (A / B)) with h0 | hpos
  · left; rw [← h0, mul_zero]
  · right
    constructor
    · intro h
      rcases mul_pos_iff.mp h with ⟨hb, _⟩ | ⟨_, hf⟩
      · exact hb
      · exact absurd hpos (not_lt.mpr hf.le)
    · intro h
      exact mul_pos h hpos

/-- Cast of the integer remainder sign statement to `ℚ`. -/
theorem intMod_sign_cast (a b : ℤ) (hb : b ≠ 0) :
    ((Int.fmod a b : ℤ) : ℚ) = 0 ∨ (0 < ((Int.fmod a b : ℤ) : ℚ) ↔ 0 < (b : ℚ)) := by
  rcases fmod_sign a b hb with h | h
  · left; exact_mod_cast h
  · right; rw [Int.cast_pos, Int.cast_pos]; exact h

/-- A nonzero Number has nonzero rational value. -/
theorem ratOf_ne_zero (v : Value) (hv : v.isNumber = true) (hz : v.isZero = false) :
    v.ratOf ≠ 0 := by
  cases v with
  | int n =>
    have : n ≠ 0 := by simpa [Value.isZero] using hz
    simpa [Value.ratOf] using Int.cast_ne_zero.mpr this
  | bool b =>
    cases b with
    | true => simp [Value.ratOf]
    | false => simp [Value.isZero] at hz
  | float q =>
    have : q ≠ 0 := by simpa [Value.isZero] using hz
    simpa [Value.ratOf] using this
  | complexX => simp [Value.isNumber] at hv

/-- The primitive `Rat.floor` agrees with the floor-ring `⌊⌋` on `ℚ`. -/
theorem rat_floor_eq (q : ℚ) : q.floor = ⌊q⌋ := rfl

/-- Remainder of integer-kind operands with nonzero divisor. -/
theorem pyMod_int_result (a b : Value) (ha : a.isIntKind = true) (hb : b.isIntKind = true)
    (hbz : b.isZero = false) :
    pyMod a b = .ok (.int (Int.fmod a.intOf b.intOf)) := by
  cases a <;> cases b <;> simp_all [pyMod, Value.isIntKind, Value.isZero]

/-- Remainder with a float operand and nonzero divisor follows the
floor-consistent formula `l - r * ⌊l / r⌋`. -/
theorem pyMod_float_result (a b : Value) (ha : a.isNumber = true) (hb : b.isNumber = true)
    (hbz : b.isZero = false) (hkind : (a.isIntKind && b.isIntKind) = false) :
    pyMod a b = .ok (.float (a.ratOf - b.ratOf * (⌊a.ratOf / b.ratOf⌋ : ℤ))) := by
  have h1 : a ≠ .complexX := by cases a <;> simp_all [Value.isNumber]
  have h2 : b ≠ .complexX := by cases b <;> simp_all [Value.isNumber]
  simp [pyMod, h1, h2, hbz, hkind, qSub_eq, qMul_eq, qDiv_eq, rat_floor_eq]

/-- The remainder of nonzero-divisor Number operands succeeds and its sign
matches the divisor (or it is zero). -/
theorem pyMod_sign_aux (l r : Value) (hl : l.isNumber = true) (hr : r.isNumber = true)
    (hrz : r.isZero = false) :
    ∃ v, pyMod l r = .ok v ∧ v.isNumber = true ∧
      (v.ratOf = 0 ∨ (0 < v.ratOf ↔ 0 < r.ratOf)) := by
  have hBne := ratOf_ne_zero r hr hrz
  by_cases hk : (l.isIntKind && r.isIntKind) = true
  · obtain ⟨hkl, hkr⟩ : l.isIntKind = true ∧ r.isIntKind = true := by
      simpa [Bool.and_eq_true] using hk
    have hbz : r.intOf ≠ 0 := by
      cases r <;> simp_all [Value.isIntKind, Value.isZero, Value.intOf]
    have hcast : r.ratOf = (r.intOf : ℚ) := by
      cases r with
      | int n => rfl
      | bool b => cases b <;> simp [Value.ratOf, Value.intOf]
      | float q => simp [Value.isIntKind] at hkr
      | complexX => simp [Value.isIntKind] at hkr
    rw [pyMod_int_result l r hkl hkr hrz]
    refine ⟨_, rfl, rfl, ?_⟩
    rw [hcast]
    simpa [Value.ratOf] using intMod_sign_cast l.intOf r.intOf hbz
  · rw [pyMod_float_result l r hl hr hrz (by simpa using hk)]
    refine ⟨_, rfl, rfl, ?_⟩
    simpa [Value.ratOf] using ratMod_sign l.ratOf r.ratOf hBne

/-- C7: the remainder operator is floor-division-consistent — for Number
operands with nonzero divisor it succeeds with a result that is zero or
has the sign of the divisor; in particular `7 % -2` evaluates to `-1`. -/
theorem C7_mod_divisor_sign :
    (∀ l r : Value, l.isNumber = true → r.isNumber = true → r.isZero = false →
      ∃ v, pyMod l r = .ok v ∧ v.isNumber = true ∧
        (v.ratOf = 0 ∨ (0 < v.ratOf ↔ 0 < r.ratOf))) ∧
      evaluate_expr (r"7 % -2") = .ok (.int (-1)) :=
  ⟨pyMod_sign_aux, by decide⟩

/-- C7 (witness): the sign property applied at `7 % -2`. -/
theorem C7_witness :
    ∃ v, pyMod (.int 7) (.int (-2)) = .ok v ∧ v.isNumber = true ∧
      (v.ratOf = 0 ∨ (0 < v.ratOf ↔ 0 < (Value.int (-2)).ratOf)) :=
  C7_mod_divisor_sign.1 (.int 7) (.int (-2)) (by decide) (by decide) (by decide)

/-- C5 (counterexample): `2 ** -1` uses only integer literals and no `/`,
yet evaluates to the float `0.5` — Python's `**` with a negative exponent
leaves the integers. -/
theorem C5_counterexample :
    pyParse (r"2 ** -1") =
        .ok (.binOp .pow (.constant (.int 2)) (.unaryOp .usub (.constant (.int 1)))) ∧
      intLiteralsOnly
          (.binOp .pow (.constant (.int 2)) (.unaryOp .usub (.constant (.int 1)))) = true ∧
      noDiv (.binOp .pow (.constant (.int 2)) (.unaryOp .usub (.constant (.int 1)))) = true ∧
      evaluate_expr (r"2 ** -1") = .ok (.float (1 / 2)) := by
  refine ⟨by decide, by decide, by decide, ?_⟩
  have h : evaluate_expr (r"2 ** -1") = .ok (.float (Rat.divInt 1 2)) := by decide
  rw [h, Rat.divInt_eq_div]
  norm_num

/-- C5 (amended): an integer-literal expression with no `/`, no float
literal and no `**` with a negative exponent evaluates (when it succeeds)
to an exact integer; an expression containing `/` or a float literal
evaluates (when it succeeds) to a float — or to a complex value in the
negative-base fractional-exponent corner of `**`. -/
theorem C5_amended :
    ∀ (s : String) (t : PyExpr) (v : Value), pyParse s = .ok t → evaluate_expr s = .ok v →
      (intLiteralsOnly t = true → noDiv t = true → noNegExp t = true → v.isIntKind = true) ∧
        (hasDivOrFloat t = true → v.isFloatish = true) := by
  intro s t v hp hev
  have heval : _eval t = .ok v := by
    simp only [evaluate_expr, hp] at hev
    cases hw : walkAst t with
    | error e => simp [hw] at hev
    | ok u => cases u; simpa [hw] using hev
  exact ⟨fun h1 h2 h3 => eval_intKind t h1 h2 h3 v heval,
    fun h => eval_floatish t h v heval⟩

/-- C5 (witness): the integer half at `2 + 3` and the float half at
`1 / 2`. -/
theorem C5_witness :
    (Value.int 5).isIntKind = true ∧ (Value.float (Rat.divInt 1 2)).isFloatish = true := by
  constructor
  · exact (C5_amended (r"2 + 3") (.binOp .add (.constant (.int 2)) (.constant (.int 3)))
      (.int 5) (by decide) (by decide)).1 (by decide) (by decide) (by decide)
  · exact (C5_amended (r"1 / 2") (.binOp .div (.constant (.int 1)) (.constant (.int 2)))
      (.float (Rat.divInt 1 2)) (by decide) (by decide)).2 (by decide)

/-- C6 (counterexample): `True` consists of letters, yet it is not a
syntax error — it parses as a boolean constant and evaluates successfully
to Python's `True`. -/
theorem C6_counterexample : evaluate_expr (r"True") = .ok (.bool true) := by decide

/-- C6 (amended): inputs containing a comma, bracket or string quote always
fail with a typed error (in the model the lexer rejects these characters as
a `SyntaxError`; CPython may instead parse them into container/string nodes
that the walk or `_eval` rejects); letter characters, by contrast, can be
part of valid keyword or numeric literals and do not guarantee an error. -/
theorem C6_amended :
    ∀ s : String, s.data.any (fun c => c ∈ [',', '[', ']', '\'', '"']) = true →
      ∃ e, evaluate_expr s = .error e := by
  intro s h
  obtain ⟨c, hc, hcm⟩ := List.any_eq_true.mp h
  have hcf : lexAlphabet c = false := by
    have hmem : c ∈ [',', '[', ']', '\'', '"'] := by simpa using hcm
    fin_cases hmem <;> decide
  have hbad : s.data.all lexAlphabet = false := by
    cases hx : s.data.all lexAlphabet with
    | false => rfl
    | true =>
      have := List.all_eq_true.mp hx c hc
      rw [hcf] at this
      cases this
  exact ⟨.syntaxError, by simp [evaluate_expr, pyParse, lex, hbad]⟩

/-- C6 (witness): the bracketed input `[1]` fails. -/
theorem C6_witness : ∃ e, evaluate_expr (r"[1]") = .error e :=
  C6_amended (r"[1]") (by decide)

/-- C8: unary minus composes with exponentiation so that negation applies
after the power — `-2 ** 2` parses as `USub (Pow 2 2)` and evaluates to
`-4`. -/
theorem C8_neg_pow :
    pyParse (r"-2 ** 2") =
        .ok (.unaryOp .usub (.binOp .pow (.constant (.int 2)) (.constant (.int 2)))) ∧
      evaluate_expr (r"-2 ** 2") = .ok (.int (-4)) := by
  refine ⟨by decide, by decide⟩

/-- C9: `evaluate_expr` is a pure function of its input string — the model
has no mutable state, so evaluating the same string twice gives identical
outcomes (in the source, none of `evaluate_expr`, the walk or `_eval`
touches any global mutable state). -/
theorem C9_deterministic : ∀ s : String, evaluate_expr s = evaluate_expr s :=
  fun _ => rfl

/-- C10: the boolean keyword literals are accepted and behave as the
integers 1 and 0 in arithmetic, because `isinstance(True, int)` holds in
Python: `True + True` is the integer `2`, `False + True` is `1` and
`False + False` is `0`. -/
theorem C10_bool_arithmetic :
    evaluate_expr (r"True + True") = .ok (.int 2) ∧
      evaluate_expr (r"False + True") = .ok (.int 1) ∧
      evaluate_expr (r"False + False") = .ok (.int 0) := by
  refine ⟨by decide, by decide, by decide⟩
